/-
  Verification of the reliable-UDP file-transfer implementation in
  src/part1/p1_client.py (receiver) and src/part1/p1_server.py (sender).

  Shallow embedding conventions:
  * wire bytes are `List Nat`, one natural number per octet;
  * Python dicts are association lists (`List (Nat × _)`); dict assignment is
    `setKey` (replace in place, append when absent), membership is `lookupKey`;
    Python sets are `List Nat` with membership semantics;
  * `time.time()` values and the RTO estimator state are rationals, passed
    explicitly into each step;
  * the sender's window entries carry a ghost flag `retx` recording whether the
    segment was ever retransmitted; the flag is written by the retransmission
    paths and never read by the transcribed control flow, so it does not alter
    behaviour — it only lets history properties be stated;
  * the receiver's `while self.next_expected in self.received_data` drain loop
    is run with fuel equal to the size of the reassembly map, which is exactly
    enough whenever the map's keys are distinct (which the transcribed
    insertion discipline maintains: a key is only ever inserted when absent).
-/
import Mathlib

namespace RUDP

/-- Wire bytes and payloads: one natural number per octet. -/
abbrev Bytes := List Nat

/-- Maximum segment size, `MSS = 1180` in both endpoints. -/
def MSS : Nat := 1180

/-- Header size in bytes, `HEADER_SIZE = 20`. -/
def HEADER_SIZE : Nat := 20

/-- Payload of the EOF segment: the three bytes of `b'EOF'` (69, 79, 70). -/
def EOFbytes : Bytes := [69, 79, 70]

/-- Big-endian value of a byte slice (`struct.unpack` with `!I` or `!H`). -/
def beVal (bs : Bytes) : Nat := bs.foldl (fun a b => a * 256 + b) 0

/-- Big-endian 4-byte encoding of a 32-bit value (`struct.pack('!I', n)`). -/
def encodeU32 (n : Nat) : Bytes :=
  [n / 2 ^ 24 % 256, n / 2 ^ 16 % 256, n / 2 ^ 8 % 256, n % 256]

/-- Association-list lookup, mirroring Python dict access `m[k]` / `k in m`. -/
def lookupKey {α : Type} (m : List (Nat × α)) (k : Nat) : Option α :=
  match m with
  | [] => none
  | (k', v) :: rest => if k' = k then some v else lookupKey rest k

/-- Python dict assignment `m[k] = v`: replace the entry in place when the key
is present, append a fresh entry otherwise. -/
def setKey {α : Type} (m : List (Nat × α)) (k : Nat) (v : α) : List (Nat × α) :=
  match m with
  | [] => [(k, v)]
  | (k', v') :: rest => if k' = k then (k, v) :: rest else (k', v') :: setKey rest k v

/-- Python set `add`: membership-preserving insertion. -/
def insertSet (s : List Nat) (k : Nat) : List Nat :=
  if k ∈ s then s else k :: s

/- ----------------------------------------------------------------
   Receiver (src/part1/p1_client.py, class ReliableUDPClient)
   ---------------------------------------------------------------- -/

/-- Receiver state: `received_data`, `next_expected`, `eof_received`,
`eof_seq` from `ReliableUDPClient.__init__`. -/
structure RecvState where
  received_data : List (Nat × Bytes)
  next_expected : Nat
  eof_received : Bool
  eof_seq : Option Nat
deriving DecidableEq

/-- Initial receiver state from `ReliableUDPClient.__init__`. -/
def initRecv : RecvState :=
  { received_data := [], next_expected := 0, eof_received := false, eof_seq := none }

/-- Transcription of `ReliableUDPClient.parse_packet`: a datagram shorter than
the 20-byte header yields no result; otherwise the sequence number is the
big-endian first four bytes and the payload is everything after the header. -/
def parsePacket (packet : Bytes) : Option (Nat × Bytes) :=
  if packet.length < HEADER_SIZE then none
  else some (beVal (packet.take 4), packet.drop HEADER_SIZE)

/-- Fuelled transcription of the drain loop
`while self.next_expected in self.received_data: self.next_expected += 1`. -/
def drainFrom (m : List (Nat × Bytes)) (e : Nat) : Nat → Nat
  | 0 => e
  | fuel + 1 =>
    match lookupKey m e with
    | some _ => drainFrom m (e + 1) fuel
    | none => e

/-- Per-datagram handler of the receiver's main loop (p1_client.py lines
200-218): parse, record EOF or store a fresh in-window payload, then drain
`next_expected` forward over the reassembly map. -/
def recvStep (st : RecvState) (packet : Bytes) : RecvState :=
  match parsePacket packet with
  | none => st
  | some (seq, data) =>
    let st1 :=
      if data = EOFbytes then
        { st with eof_received := true, eof_seq := some seq }
      else if st.next_expected ≤ seq ∧ lookupKey st.received_data seq = none then
        { st with received_data := setKey st.received_data seq data }
      else st
    { st1 with next_expected := drainFrom st1.received_data st1.next_expected st1.received_data.length }

/-- Handler for the first packet (p1_client.py lines 127-138): EOF is recorded,
other payloads are stored unconditionally, and `next_expected` is bumped by one
exactly when the packet is the expected non-EOF segment. -/
def recvFirstStep (st : RecvState) (packet : Bytes) : RecvState :=
  match parsePacket packet with
  | none => st
  | some (seq, data) =>
    let st1 :=
      if data = EOFbytes then
        { st with eof_received := true, eof_seq := some seq }
      else
        { st with received_data := setKey st.received_data seq data }
    if seq = st1.next_expected ∧ data ≠ EOFbytes then
      { st1 with next_expected := st1.next_expected + 1 }
    else st1

/-- Filter used when writing the output file: keep a sequence number when
`self.eof_seq is None or s < self.eof_seq` (p1_client.py line 253). -/
def eofFilter (eof : Option Nat) (s : Nat) : Bool :=
  match eof with
  | none => true
  | some n => decide (s < n)

/-- Transcription of `data_sequences = sorted([s for s in received_data.keys()
if eof_seq is None or s < eof_seq])`. -/
def dataSequences (st : RecvState) : List Nat :=
  List.insertionSort (· ≤ ·) ((st.received_data.map Prod.fst).filter (eofFilter st.eof_seq))

/-- Byte stream written to the output file (p1_client.py lines 271-276): the
payloads of `data_sequences` concatenated in increasing sequence order. -/
def writeOutput (st : RecvState) : Bytes :=
  ((dataSequences st).map (fun s => (lookupKey st.received_data s).getD [])).flatten

/-- Return value of `receive_file` after the write stage (p1_client.py lines
281-291): with an EOF recorded, success iff the number of data sequences
equals `eof_seq`; with no EOF recorded the function returns `True`. -/
def receiveResult (st : RecvState) : Bool :=
  match st.eof_seq with
  | some n => decide ((dataSequences st).length = n)
  | none => true

/-- Receiver run: the first datagram through the first-packet handler, every
later datagram through the main-loop handler. -/
def runReceiver (first : Bytes) (events : List Bytes) : RecvState :=
  events.foldl recvStep (recvFirstStep initRecv first)

/-- Contiguous in-order portion of the output: payloads of segments
`0 .. next_expected - 1` in order. -/
def contigBytes (st : RecvState) : Bytes :=
  ((List.range st.next_expected).map (fun s => (lookupKey st.received_data s).getD [])).flatten

/- ----------------------------------------------------------------
   Sender segmentation (src/part1/p1_server.py, send_file lines 93-103)
   ---------------------------------------------------------------- -/

/-- Number of data chunks: the length of `range(0, len(file_data), MSS)`,
namely `ceil(len(file_data) / MSS)`. -/
def numChunks (F : Bytes) : Nat := (F.length + MSS - 1) / MSS

/-- Chunk number `k` of the file: `file_data[k*MSS : k*MSS + MSS]`. -/
def chunkAt (F : Bytes) (k : Nat) : Bytes := (F.drop (k * MSS)).take MSS

/-- Transcription of the chunking loop
`for i in range(0, len(file_data), MSS): chunks.append(file_data[i:i+MSS])`. -/
def chunks (F : Bytes) : List Bytes := (List.range (numChunks F)).map (chunkAt F)

/-- Chunk list with the EOF marker appended (`chunks.append(b'EOF')`); the
sequence number of a segment is its index in this list. -/
def allChunks (F : Bytes) : List Bytes := chunks F ++ [EOFbytes]

/- ----------------------------------------------------------------
   Sender (src/part1/p1_server.py, class ReliableUDPServer)
   ---------------------------------------------------------------- -/

/-- Estimator constant `ALPHA = 0.125`. -/
def ALPHA : ℚ := 1 / 8

/-- Estimator constant `BETA = 0.25`. -/
def BETA : ℚ := 1 / 4

/-- Estimator constant `K = 4`. -/
def K : ℚ := 4

/-- Sender window entry: the wire packet and its last send time, from
`self.window[seq] = (packet, send_time)`, plus the ghost flag `retx`
recording whether the segment was ever retransmitted (set by every
retransmission path, never read by the transcribed control flow). -/
structure WEntry where
  packet : Bytes
  send_time : ℚ
  retx : Bool
deriving DecidableEq

/-- Sender state from `ReliableUDPServer.__init__`, plus the ghost log
`samples_fed` of every RTT sample passed to `estimate_rto`. -/
structure SendState where
  base_seq : Nat
  next_seq : Nat
  window : List (Nat × WEntry)
  estimated_rtt : Option ℚ
  dev_rtt : Option ℚ
  rto : ℚ
  duplicate_ack_count : List (Nat × Nat)
  sacked_packets : List Nat
  samples_fed : List ℚ
deriving DecidableEq

/-- Initial sender state from `ReliableUDPServer.__init__` (`INITIAL_RTO = 1.0`). -/
def initSend : SendState :=
  { base_seq := 0, next_seq := 0, window := [], estimated_rtt := none,
    dev_rtt := none, rto := 1, duplicate_ack_count := [], sacked_packets := [],
    samples_fed := [] }

/-- Transcription of `ReliableUDPServer.estimate_rto`: exponential averaging
with the clamp `rto = max(0.3, min(rto, 3.0))`; the sample is also appended to
the ghost log `samples_fed`. -/
def estimate_rto (st : SendState) (sample : ℚ) : SendState :=
  let p :=
    match st.estimated_rtt, st.dev_rtt with
    | some er, some dr =>
      ((1 - ALPHA) * er + ALPHA * sample, (1 - BETA) * dr + BETA * |sample - er|)
    | _, _ => (sample, sample / 2)
  { st with estimated_rtt := some p.1, dev_rtt := some p.2,
            rto := max (3 / 10) (min (p.1 + K * p.2) 3),
            samples_fed := st.samples_fed ++ [sample] }

/-- Transcription of `ReliableUDPServer.create_packet`: big-endian sequence
number, sixteen zero bytes, then the payload. -/
def create_packet (seq : Nat) (data : Bytes) : Bytes :=
  encodeU32 seq ++ List.replicate 16 0 ++ data

/-- Transcription of `ReliableUDPServer.parse_ack`: a datagram shorter than 4
bytes yields nothing; otherwise the cumulative ACK is the big-endian first
four bytes, and when at least 20 bytes are present the reserved area is cut
into four `(start_offset, length)` pairs, keeping those that are not `(0,0)`. -/
def parse_ack (packet : Bytes) : Option (Nat × List (Nat × Nat)) :=
  if packet.length < 4 then none
  else
    let cum := beVal (packet.take 4)
    let sacks :=
      if 20 ≤ packet.length then
        let reserved := (packet.drop 4).take 16
        (List.range 4).filterMap (fun i =>
          let so := beVal ((reserved.drop (4 * i)).take 2)
          let ln := beVal ((reserved.drop (4 * i + 2)).take 2)
          if 0 < so ∨ 0 < ln then some (so, ln) else none)
      else []
    some (cum, sacks)

/-- Cumulative-ACK part of the sender's ACK handler (p1_server.py lines
146-172): an ACK beyond `base_seq` feeds an RTT sample from the base entry's
last send time whenever that entry exists, drops entries in `[base, cum)` and
advances the base; an ACK equal to `base_seq` increments the duplicate
counter and, exactly when the counter reaches 3, rewrites the base entry's
send time (fast retransmit). -/
def cumBranch (st : SendState) (cum : Nat) (ack_time current_time : ℚ) : SendState :=
  if st.base_seq < cum then
    let st1 :=
      match lookupKey st.window st.base_seq with
      | some e => estimate_rto st (ack_time - e.send_time)
      | none => st
    { st1 with
      window := st1.window.filter (fun p => decide (p.1 < st.base_seq ∨ cum ≤ p.1)),
      duplicate_ack_count :=
        st1.duplicate_ack_count.filter (fun p => decide (p.1 < st.base_seq ∨ cum ≤ p.1)),
      sacked_packets := st1.sacked_packets.filter (fun q => decide (q < st.base_seq ∨ cum ≤ q)),
      base_seq := cum }
  else if cum = st.base_seq then
    let c := (lookupKey st.duplicate_ack_count cum).getD 0 + 1
    let st1 := { st with duplicate_ack_count := setKey st.duplicate_ack_count cum c }
    if c = 3 then
      match lookupKey st1.window st1.base_seq with
      | some e =>
        { st1 with window := (setKey st1.window st1.base_seq
            { e with send_time := current_time, retx := true }) }
      | none => st1
    else st1
  else st

/-- Body of the SACK-marking loop (p1_server.py lines 177-190), for one
`(start_offset, length)` block relative to the fixed base `b`. -/
def sackMark (b total : Nat) (acc : SendState) (p : Nat × Nat) : SendState :=
  if p.1 = 0 ∨ p.2 = 0 then acc
  else
    let start_seq := b + p.1
    let end_seq := min (start_seq + p.2) total
    if start_seq < b ∨ total ≤ start_seq then acc
    else { acc with sacked_packets :=
      (List.range' start_seq (end_seq - start_seq)).foldl insertSet acc.sacked_packets }

/-- Body of the hole-fill loop (p1_server.py lines 195-202), for one window
position: an unSACKed window entry whose last send is older than
`max(0.1, rto / 4)` is retransmitted at `current_time`. -/
def holeRetx (current_time : ℚ) (acc : SendState) (seq : Nat) : SendState :=
  if seq ∈ acc.sacked_packets then acc
  else
    match lookupKey acc.window seq with
    | some e =>
      if max (1 / 10) (acc.rto / 4) < current_time - e.send_time then
        { acc with window := (setKey acc.window seq
            { e with send_time := current_time, retx := true }) }
      else acc
    | none => acc

/-- SACK part of the sender's ACK handler (p1_server.py lines 174-211): mark
reported ranges as SACKed, retransmit every unSACKed hole of the window, then
discard SACK marks below the base. -/
def sackBranch (st : SendState) (sacks : List (Nat × Nat)) (current_time : ℚ)
    (total : Nat) : SendState :=
  if sacks ≠ [] ∧ st.base_seq < total then
    let st1 := sacks.foldl (sackMark st.base_seq total) st
    let st2 := (List.range' st1.base_seq (min st1.next_seq total - st1.base_seq)).foldl
      (holeRetx current_time) st1
    { st2 with sacked_packets := st2.sacked_packets.filter (fun s => decide (¬ s < st2.base_seq)) }
  else st

/-- Whole per-ACK handler of the sender's main loop (p1_server.py lines
138-211): parse, cumulative branch, then SACK branch on the updated state. -/
def processAck (st : SendState) (packet : Bytes) (ack_time current_time : ℚ)
    (total : Nat) : SendState :=
  match parse_ack packet with
  | none => st
  | some (cum, sacks) => sackBranch (cumBranch st cum ack_time current_time) sacks current_time total

/-- Fuelled transcription of the admission loop (p1_server.py lines 112-119):
while `next_seq < total` and `(next_seq - base_seq) * MSS < sws`, send the
chunk at `next_seq`, record it in the window and advance. The Python loop
never terminates when `next_seq` is already a window key; the reachable-state
invariant `window keys = [base_seq, next_seq)` rules that case out, and the
embedding returns the state unchanged there. -/
def admitAux (chunksL : List Bytes) (sws : Nat) (now : ℚ) (st : SendState) :
    Nat → SendState
  | 0 => st
  | fuel + 1 =>
    if st.next_seq < chunksL.length ∧ (st.next_seq - st.base_seq) * MSS < sws then
      match lookupKey st.window st.next_seq with
      | some _ => st
      | none =>
        admitAux chunksL sws now
          { st with
            window := setKey st.window st.next_seq
              { packet := create_packet st.next_seq (chunksL.getD st.next_seq []),
                send_time := now, retx := false },
            next_seq := st.next_seq + 1 } fuel
    else st

/-- Admission loop entry point: the fuel `chunksL.length - next_seq` bounds the
number of admissions the guard `next_seq < chunksL.length` can allow. -/
def admitAll (chunksL : List Bytes) (sws : Nat) (now : ℚ) (st : SendState) : SendState :=
  admitAux chunksL sws now st (chunksL.length - st.next_seq)

/-- Body of the timeout retransmission loop (p1_server.py lines 130-135), for
one window position: an unSACKed window entry whose last send is older than
`rto` is retransmitted at `current_time`. -/
def timeoutRetx (current_time : ℚ) (acc : SendState) (seq : Nat) : SendState :=
  if seq ∈ acc.sacked_packets then acc
  else
    match lookupKey acc.window seq with
    | some e2 =>
      if acc.rto < current_time - e2.send_time then
        { acc with window := (setKey acc.window seq
            { e2 with send_time := current_time, retx := true }) }
      else acc
    | none => acc

/-- Timeout block of the sender's main loop (p1_server.py lines 121-135): when
the base entry's last send is older than `rto`, retransmit it and every later
unSACKed window entry of `[base+1, min(next_seq, total))` that also timed out. -/
def timeoutStep (total : Nat) (current_time : ℚ) (st : SendState) : SendState :=
  match lookupKey st.window st.base_seq with
  | none => st
  | some e =>
    if st.rto < current_time - e.send_time then
      let st1 := { st with window := (setKey st.window st.base_seq
        { e with send_time := current_time, retx := true }) }
      (List.range' (st.base_seq + 1) (min st.next_seq total - (st.base_seq + 1))).foldl
        (timeoutRetx current_time) st1
    else st

/-- Fields of the sender state untouched by the SACK-marking, hole-fill and
timeout-retransmission loops (they modify only `window` and
`sacked_packets`). -/
def SameCore (s s' : SendState) : Prop :=
  s.base_seq = s'.base_seq ∧ s.next_seq = s'.next_seq ∧
  s.duplicate_ack_count = s'.duplicate_ack_count ∧ s.samples_fed = s'.samples_fed

/- ----------------------------------------------------------------
   Helper lemmas
   ---------------------------------------------------------------- -/

/-- Foldl preserves any invariant its step function preserves. -/
theorem foldl_preserve {α β : Type} (f : β → α → β) (P : β → Prop)
    (h : ∀ b a, P b → P (f b a)) : ∀ (l : List α) (b : β), P b → P (l.foldl f b) := by
  intro l
  induction l with
  | nil => intro b hb; exact hb
  | cons a t ih => intro b hb; exact ih (f b a) (h b a hb)

/-- Keys found by `lookupKey` belong to the key list. -/
theorem lookupKey_some_mem {α : Type} {m : List (Nat × α)} {k : Nat} {v : α}
    (h : lookupKey m k = some v) : k ∈ m.map Prod.fst := by
  induction m with
  | nil => simp [lookupKey] at h
  | cons p t ih =>
    by_cases hk : p.1 = k
    · simp [hk]
    · simp only [lookupKey, hk, if_false] at h
      simp [ih h]

/-- Every listed key is found by `lookupKey`. -/
theorem mem_lookupKey_isSome {α : Type} {m : List (Nat × α)} {k : Nat}
    (h : k ∈ m.map Prod.fst) : (lookupKey m k).isSome := by
  induction m with
  | nil => simp at h
  | cons p t ih =>
    by_cases hk : p.1 = k
    · simp [lookupKey, hk]
    · simp only [List.map_cons, List.mem_cons] at h
      rcases h with h | h
      · exact absurd h.symm hk
      · simpa [lookupKey, hk] using ih h

/-- The drain loop never moves `next_expected` backwards. -/
theorem drainFrom_ge (m : List (Nat × Bytes)) :
    ∀ (fuel e : Nat), e ≤ drainFrom m e fuel := by
  intro fuel
  induction fuel with
  | zero => intro e; exact Nat.le_refl e
  | succ n ih =>
    intro e
    unfold drainFrom
    split
    · exact Nat.le_trans (Nat.le_succ e) (ih (e + 1))
    · exact Nat.le_refl e

/-- Chunk 0 is the first `MSS` bytes of the file. -/
theorem chunkAt_zero (F : Bytes) : chunkAt F 0 = F.take MSS := by
  simp [chunkAt]

/-- Later chunks of a file are chunks of the file with its head chunk dropped. -/
theorem chunkAt_succ (F : Bytes) (k : Nat) : chunkAt F (k + 1) = chunkAt (F.drop MSS) k := by
  simp only [chunkAt, List.drop_drop]
  ring_nf

/-- Chunk count of a nonempty file is one more than that of its tail. -/
theorem numChunks_cons (F : Bytes) (h : F ≠ []) :
    numChunks F = numChunks (F.drop MSS) + 1 := by
  have hl : 0 < F.length := List.length_pos.mpr h
  simp only [numChunks, List.length_drop, MSS]
  omega

/-- Chunking a nonempty file takes the head chunk and recurses on the rest. -/
theorem chunks_cons (F : Bytes) (h : F ≠ []) :
    chunks F = F.take MSS :: chunks (F.drop MSS) := by
  unfold chunks
  rw [numChunks_cons F h, List.range_succ_eq_map, List.map_cons, List.map_map]
  rw [chunkAt_zero]
  refine congrArg (F.take MSS :: ·) ?_
  apply List.map_congr_left
  intro a _
  exact chunkAt_succ F a

/-- Concatenating the chunks of a file reconstitutes the file. -/
theorem flatten_chunks (F : Bytes) : (chunks F).flatten = F := by
  generalize hn : F.length = n
  induction n using Nat.strong_induction_on generalizing F with
  | _ n ih =>
    cases hF : F with
    | nil => simp [chunks, numChunks, MSS]
    | cons a t =>
      rw [← hF, chunks_cons F (by simp [hF]), List.flatten_cons]
      rw [ih ((F.drop MSS).length) ?_ (F.drop MSS) rfl]
      · exact List.take_append_drop MSS F
      · simp only [List.length_drop]
        have : 0 < F.length := by simp [hF]
        simp only [MSS]
        omega

/-- Sorting a duplicate-free list whose members are exactly the naturals below
`N` yields `range N`. -/
theorem sort_eq_range (l : List Nat) (N : Nat) (hnd : l.Nodup)
    (hub : ∀ x ∈ l, x < N) (hall : ∀ x, x < N → x ∈ l) :
    List.insertionSort (· ≤ ·) l = List.range N := by
  apply List.eq_of_perm_of_sorted ?_ (List.sorted_insertionSort _ l) (List.sorted_le_range N)
  refine (List.perm_insertionSort _ l).trans ?_
  rw [List.perm_ext_iff_of_nodup hnd (List.nodup_range N)]
  intro a
  simp only [List.mem_range]
  exact ⟨fun h => hub a h, fun h => hall a h⟩

/-- Sorting a duplicate-free list that contains every natural below `e` but not
`e` itself splits as `range e` followed by the sorted keys above `e`. -/
theorem sort_split (l : List Nat) (e : Nat) (hnd : l.Nodup)
    (hall : ∀ k, k < e → k ∈ l) (he : e ∉ l) :
    List.insertionSort (· ≤ ·) l =
      List.range e ++ List.insertionSort (· ≤ ·) (l.filter (fun x => decide (e < x))) := by
  have hfnd : (l.filter (fun x => decide (e < x))).Nodup := hnd.filter _
  apply List.eq_of_perm_of_sorted ?_ (List.sorted_insertionSort _ l) ?_
  · refine (List.perm_insertionSort _ l).trans ?_
    refine List.Perm.trans ?_ (List.Perm.append_left (List.range e) (List.perm_insertionSort _ _).symm)
    rw [List.perm_ext_iff_of_nodup hnd ?_]
    · intro a
      simp only [List.mem_append, List.mem_range, List.mem_filter, decide_eq_true_eq]
      constructor
      · intro ha
        rcases Nat.lt_trichotomy a e with h | h | h
        · exact Or.inl h
        · exact absurd (h ▸ ha) he
        · exact Or.inr ⟨ha, h⟩
      · intro ha
        rcases ha with h | h
        · exact hall a h
        · exact h.1
    · rw [List.nodup_append]
      refine ⟨List.nodup_range e, hfnd, ?_⟩
      intro a ha hb
      rw [List.mem_range] at ha
      rw [List.mem_filter, decide_eq_true_eq] at hb
      omega
  · rw [List.Sorted, List.pairwise_append]
    refine ⟨List.sorted_le_range e, List.sorted_insertionSort _ _, ?_⟩
    intro a ha b hb
    rw [List.mem_range] at ha
    have hb2 := (List.perm_insertionSort (· ≤ ·) _).mem_iff.mp hb
    rw [List.mem_filter, decide_eq_true_eq] at hb2
    omega

/- ----------------------------------------------------------------
   Claims
   ---------------------------------------------------------------- -/

/-- C1: for every input file `F`, if the receiver has every data segment
`0 .. eof_seq - 1` in its reassembly map when it writes the output file (with
`eof_seq` the sender's data-segment count and each stored payload the sender's
chunk for that sequence number, the reassembly map having duplicate-free keys
as a Python dict does), then the byte stream written to the output file equals
`F` byte-for-byte — the in-order concatenation of the sender's MSS-sized
chunks of `F`. -/
theorem C1_byte_exact (F : Bytes) (st : RecvState)
    (hnd : (st.received_data.map Prod.fst).Nodup)
    (heof : st.eof_seq = some (numChunks F))
    (hall : ∀ k, k < numChunks F → lookupKey st.received_data k = some (chunkAt F k)) :
    writeOutput st = F := by
  have hds : dataSequences st = List.range (numChunks F) := by
    unfold dataSequences
    rw [heof]
    apply sort_eq_range
    · exact hnd.filter _
    · intro x hx
      rw [List.mem_filter] at hx
      simpa [eofFilter] using hx.2
    · intro x hx
      rw [List.mem_filter]
      refine ⟨lookupKey_some_mem (hall x hx), ?_⟩
      simp [eofFilter, hx]
  unfold writeOutput
  rw [hds]
  have hmap : (List.range (numChunks F)).map (fun s => (lookupKey st.received_data s).getD [])
      = chunks F := by
    unfold chunks
    apply List.map_congr_left
    intro a ha
    rw [List.mem_range] at ha
    rw [hall a ha]
    rfl
  rw [hmap, flatten_chunks]

/-- Witness for C1 at the three-byte file `[1, 2, 3]` delivered as its single
data segment with `eof_seq = 1`. -/
theorem C1_byte_exact_witness :
    writeOutput { received_data := [(0, [1, 2, 3])], next_expected := 1,
                  eof_received := true, eof_seq := some 1 } = [1, 2, 3] :=
  C1_byte_exact [1, 2, 3] _ (by decide) (by decide) (by decide)

/-- Indexing the chunk list inside its range picks the corresponding slice. -/
theorem chunks_getD (F : Bytes) (i : Nat) (hi : i < numChunks F) :
    (chunks F).getD i [] = chunkAt F i := by
  unfold chunks
  rw [List.getD_eq_getElem?_getD, List.getElem?_map, List.getElem?_range hi]
  rfl

/-- Length of a chunk in terms of the file length. -/
theorem length_chunkAt (F : Bytes) (i : Nat) :
    (chunkAt F i).length = min MSS (F.length - i * MSS) := by
  rw [chunkAt, List.length_take, List.length_drop]

/-- C10: the sender produces exactly `ceil(S / MSS) + 1` segments — data
segments numbered `0 .. N-1`, each nonempty and of exactly `MSS` bytes except
possibly a shorter final one, followed by an EOF segment with sequence number
`N` and payload the three bytes of `EOF`; for an empty file only the EOF
segment, with sequence number 0, is sent. -/
theorem C10_segmentation (F : Bytes) :
    (allChunks F).length = numChunks F + 1 ∧
    numChunks F = (F.length + MSS - 1) / MSS ∧
    (∀ i, i < numChunks F →
      0 < ((chunks F).getD i []).length ∧
      ((chunks F).getD i []).length ≤ MSS ∧
      (i + 1 < numChunks F → ((chunks F).getD i []).length = MSS)) ∧
    (allChunks F).getD (numChunks F) [] = EOFbytes ∧
    (F = [] → allChunks F = [EOFbytes]) := by
  refine ⟨?_, rfl, ?_, ?_, ?_⟩
  · simp [allChunks, chunks]
  · intro i hi
    rw [chunks_getD F i hi, length_chunkAt]
    simp only [numChunks, MSS] at hi ⊢
    omega
  · have hlen : (chunks F).length = numChunks F := by simp [chunks]
    rw [allChunks, List.getD_eq_getElem?_getD, ← hlen, List.getElem?_concat_length]
    rfl
  · intro h
    subst h
    rfl

/-- Witness for C10: segment count at a three-byte file, and the empty file
producing only the EOF segment. -/
theorem C10_segmentation_witness :
    (allChunks [1, 2, 3]).length = numChunks [1, 2, 3] + 1 ∧ allChunks [] = [EOFbytes] :=
  ⟨(C10_segmentation [1, 2, 3]).1, (C10_segmentation []).2.2.2.2 rfl⟩

/-- C2: evaluation of the receiver at a failing input. A run that delivers the
first data segment (sequence 0, payload byte 65) and then never sees an EOF
ends with `eof_seq = None`; `receive_file` nevertheless returns `True`
(p1_client.py line 291), so the process exits 0 although the transfer was
never verified complete — against both the claim and the code's own
`ERROR: No EOF received` diagnostic on this path. -/
theorem C2_no_eof_returns_success :
    receiveResult (runReceiver (encodeU32 0 ++ List.replicate 16 0 ++ [65]) []) = true ∧
    (runReceiver (encodeU32 0 ++ List.replicate 16 0 ++ [65]) []).eof_seq = none ∧
    (runReceiver (encodeU32 0 ++ List.replicate 16 0 ++ [65]) []).received_data = [(0, [65])] := by
  decide

/-- C4 counterexample: a receiver state that terminates with segment 0 (below
`eof_seq = 2`) never received and `next_expected = 0` writes the payload of
segment 1 — which lies beyond the first gap — so the output file is not the
contiguous prefix (which is empty here). -/
theorem C4_gap_write_cex :
    lookupKey ({ received_data := [(1, [7])], next_expected := 0, eof_received := true,
                 eof_seq := some 2 } : RecvState).received_data 0 = none ∧
    writeOutput { received_data := [(1, [7])], next_expected := 0, eof_received := true,
                  eof_seq := some 2 } = [7] ∧
    contigBytes { received_data := [(1, [7])], next_expected := 0, eof_received := true,
                  eof_seq := some 2 } = [] := by
  decide

/-- C4 amended: when the receiver terminates with a gap at `next_expected`
(every segment below it received, the segment at it missing), the bytes
written are the contiguous prefix `0 .. next_expected - 1` followed by the
payloads of all further received segments below `eof_seq` in increasing
sequence order — segments beyond the first gap are also written, not omitted. -/
theorem C4_amended (st : RecvState) (N : Nat)
    (hnd : (st.received_data.map Prod.fst).Nodup)
    (heof : st.eof_seq = some N)
    (he : st.next_expected ≤ N)
    (hcompl : ∀ k, k < st.next_expected → (lookupKey st.received_data k).isSome)
    (hgap : lookupKey st.received_data st.next_expected = none) :
    writeOutput st = contigBytes st ++
      ((List.insertionSort (· ≤ ·)
        (((st.received_data.map Prod.fst).filter (eofFilter st.eof_seq)).filter
          (fun x => decide (st.next_expected < x)))).map
        (fun s => (lookupKey st.received_data s).getD [])).flatten := by
  have hds : dataSequences st = List.range st.next_expected ++
      List.insertionSort (· ≤ ·)
        (((st.received_data.map Prod.fst).filter (eofFilter st.eof_seq)).filter
          (fun x => decide (st.next_expected < x))) := by
    unfold dataSequences
    apply sort_split
    · exact hnd.filter _
    · intro k hk
      rw [List.mem_filter]
      constructor
      · have hk2 := hcompl k hk
        cases hl : lookupKey st.received_data k with
        | none => rw [hl] at hk2; simp at hk2
        | some v => exact lookupKey_some_mem hl
      · rw [heof]
        simp only [eofFilter, decide_eq_true_eq]
        omega
    · intro hmem
      rw [List.mem_filter] at hmem
      have hs := mem_lookupKey_isSome hmem.1
      rw [hgap] at hs
      simp at hs
  unfold writeOutput
  rw [hds, List.map_append, List.flatten_append]
  rfl

/-- Witness for C4 amended: segments 0 and 2 received, segment 1 missing,
`eof_seq = 3`. -/
theorem C4_amended_witness :
    writeOutput { received_data := [(0, [10]), (2, [30])], next_expected := 1,
                  eof_received := true, eof_seq := some 3 } =
      contigBytes { received_data := [(0, [10]), (2, [30])], next_expected := 1,
                    eof_received := true, eof_seq := some 3 } ++
      ((List.insertionSort (· ≤ ·)
        (((({ received_data := [(0, [10]), (2, [30])], next_expected := 1,
              eof_received := true, eof_seq := some 3 } : RecvState).received_data.map
              Prod.fst).filter (eofFilter (some 3))).filter
          (fun x => decide (1 < x)))).map
        (fun s => (lookupKey [(0, [10]), (2, [30])] s).getD [])).flatten :=
  C4_amended { received_data := [(0, [10]), (2, [30])], next_expected := 1,
               eof_received := true, eof_seq := some 3 } 3
    (by decide) (by decide) (by decide) (by decide) (by decide)

/-- C5 counterexample: a data segment whose payload happens to be the three
bytes `EOF` (here sequence 0 carrying bytes 69 79 70) is not stored as file
data — the receiver records it as the terminator (`eof_seq = 0`) and leaves
the reassembly map empty, so classification does depend on content bytes. -/
theorem C5_content_eof_cex :
    (recvStep initRecv (encodeU32 0 ++ List.replicate 16 0 ++ [69, 79, 70])).received_data = [] ∧
    (recvStep initRecv (encodeU32 0 ++ List.replicate 16 0 ++ [69, 79, 70])).eof_seq = some 0 ∧
    (recvStep initRecv (encodeU32 0 ++ List.replicate 16 0 ++ [69, 79, 70])).eof_received = true := by
  decide

/-- C5 amended: the receiver classifies any segment whose payload equals the
three bytes `EOF` as the terminator, in both the first-packet handler and the
main-loop handler — it records `eof_seq` and does not store the payload, even
when those bytes are file content. -/
theorem C5_amended (st : RecvState) (pkt : Bytes) (seq : Nat)
    (h : parsePacket pkt = some (seq, EOFbytes)) :
    (recvStep st pkt).eof_received = true ∧
    (recvStep st pkt).eof_seq = some seq ∧
    (recvStep st pkt).received_data = st.received_data ∧
    (recvFirstStep st pkt).eof_received = true ∧
    (recvFirstStep st pkt).eof_seq = some seq ∧
    (recvFirstStep st pkt).received_data = st.received_data := by
  unfold recvStep recvFirstStep
  rw [h]
  simp

/-- Witness for C5 amended at a fresh receiver and a sequence-1 packet whose
payload is the three bytes `EOF`. -/
theorem C5_amended_witness :
    (recvStep initRecv (encodeU32 1 ++ List.replicate 16 0 ++ [69, 79, 70])).eof_received = true ∧
    (recvStep initRecv (encodeU32 1 ++ List.replicate 16 0 ++ [69, 79, 70])).eof_seq = some 1 ∧
    (recvStep initRecv (encodeU32 1 ++ List.replicate 16 0 ++ [69, 79, 70])).received_data =
      initRecv.received_data ∧
    (recvFirstStep initRecv (encodeU32 1 ++ List.replicate 16 0 ++ [69, 79, 70])).eof_received = true ∧
    (recvFirstStep initRecv (encodeU32 1 ++ List.replicate 16 0 ++ [69, 79, 70])).eof_seq = some 1 ∧
    (recvFirstStep initRecv (encodeU32 1 ++ List.replicate 16 0 ++ [69, 79, 70])).received_data =
      initRecv.received_data :=
  C5_amended initRecv (encodeU32 1 ++ List.replicate 16 0 ++ [69, 79, 70]) 1 (by decide)

/-- C8 counterexample: a 20-byte datagram — a data datagram with a zero-length
payload — is not silently dropped by the receiver: from the fresh state it is
stored as an empty segment 0 and `next_expected` advances to 1. -/
theorem C8_zero_payload_cex :
    (recvStep initRecv (List.replicate 20 0)).received_data = [(0, [])] ∧
    (recvStep initRecv (List.replicate 20 0)).next_expected = 1 := by
  decide

/-- C8 amended: both handlers are total functions of the incoming bytes, and a
datagram shorter than the 20-byte header (receiver) or shorter than 4 bytes
(sender) is dropped with no state change; but a data datagram with a
zero-length payload is not dropped — its empty payload is stored in the
reassembly map (and can advance `next_expected`). -/
theorem C8_amended :
    (∀ (st : RecvState) (pkt : Bytes), pkt.length < HEADER_SIZE → recvStep st pkt = st) ∧
    (∀ (st : RecvState) (pkt : Bytes), pkt.length < HEADER_SIZE → recvFirstStep st pkt = st) ∧
    (∀ (st : SendState) (pkt : Bytes) (a t : ℚ) (tot : Nat), pkt.length < 4 →
      processAck st pkt a t tot = st) ∧
    (∀ (st : RecvState) (pkt : Bytes) (seq : Nat), parsePacket pkt = some (seq, []) →
      st.next_expected ≤ seq → lookupKey st.received_data seq = none →
      (recvStep st pkt).received_data = setKey st.received_data seq []) := by
  refine ⟨?_, ?_, ?_, ?_⟩
  · intro st pkt h
    unfold recvStep
    rw [parsePacket, if_pos h]
  · intro st pkt h
    unfold recvFirstStep
    rw [parsePacket, if_pos h]
  · intro st pkt a t tot h
    unfold processAck
    rw [parse_ack, if_pos h]
  · intro st pkt seq h hle hnone
    unfold recvStep
    rw [h]
    dsimp only
    rw [if_neg (by decide), if_pos ⟨hle, hnone⟩]

/-- Witness for C8 amended: a 3-byte datagram at the receiver, a 1-byte
datagram at the first-packet handler, a 1-byte ACK at the sender, and the
all-zero 20-byte datagram stored as an empty segment. -/
theorem C8_amended_witness :
    recvStep initRecv [1, 2, 3] = initRecv ∧
    recvFirstStep initRecv [1] = initRecv ∧
    processAck initSend [9] 0 0 5 = initSend ∧
    (recvStep initRecv (List.replicate 20 0)).received_data = setKey initRecv.received_data 0 [] :=
  ⟨C8_amended.1 initRecv [1, 2, 3] (by decide), C8_amended.2.1 initRecv [1] (by decide),
   C8_amended.2.2.1 initSend [9] 0 0 5 (by decide),
   C8_amended.2.2.2 initRecv (List.replicate 20 0) 0 (by decide) (by decide) (by decide)⟩

theorem sameCore_refl (s : SendState) : SameCore s s := ⟨rfl, rfl, rfl, rfl⟩

theorem sameCore_trans {a b c : SendState} (h1 : SameCore a b) (h2 : SameCore b c) :
    SameCore a c :=
  ⟨h1.1.trans h2.1, h1.2.1.trans h2.2.1, h1.2.2.1.trans h2.2.2.1, h1.2.2.2.trans h2.2.2.2⟩

theorem sackMark_core (b tot : Nat) (acc : SendState) (p : Nat × Nat) :
    SameCore (sackMark b tot acc p) acc := by
  unfold sackMark
  split
  · exact sameCore_refl acc
  · dsimp only
    split
    · exact sameCore_refl acc
    · exact ⟨rfl, rfl, rfl, rfl⟩

theorem holeRetx_core (t : ℚ) (acc : SendState) (seq : Nat) :
    SameCore (holeRetx t acc seq) acc := by
  unfold holeRetx
  split
  · exact sameCore_refl acc
  · split
    · split
      · exact ⟨rfl, rfl, rfl, rfl⟩
      · exact sameCore_refl acc
    · exact sameCore_refl acc

theorem timeoutRetx_core (t : ℚ) (acc : SendState) (seq : Nat) :
    SameCore (timeoutRetx t acc seq) acc := by
  unfold timeoutRetx
  split
  · exact sameCore_refl acc
  · split
    · split
      · exact ⟨rfl, rfl, rfl, rfl⟩
      · exact sameCore_refl acc
    · exact sameCore_refl acc

theorem foldl_sameCore {α : Type} (f : SendState → α → SendState)
    (hf : ∀ b a, SameCore (f b a) b) (l : List α) (b : SendState) :
    SameCore (l.foldl f b) b :=
  foldl_preserve f (fun s => SameCore s b) (fun s a hs => sameCore_trans (hf s a) hs) l b
    (sameCore_refl b)

theorem sackBranch_core (st : SendState) (sacks : List (Nat × Nat)) (t : ℚ) (tot : Nat) :
    SameCore (sackBranch st sacks t tot) st := by
  unfold sackBranch
  split
  · dsimp only
    have h1 : SameCore (sacks.foldl (sackMark st.base_seq tot) st) st :=
      foldl_sameCore (sackMark st.base_seq tot) (sackMark_core st.base_seq tot) sacks st
    have h2 : SameCore
        ((List.range' (sacks.foldl (sackMark st.base_seq tot) st).base_seq
          (min (sacks.foldl (sackMark st.base_seq tot) st).next_seq tot
            - (sacks.foldl (sackMark st.base_seq tot) st).base_seq)).foldl (holeRetx t)
          (sacks.foldl (sackMark st.base_seq tot) st))
        (sacks.foldl (sackMark st.base_seq tot) st) :=
      foldl_sameCore (holeRetx t) (holeRetx_core t) _ _
    exact sameCore_trans (sameCore_trans ⟨rfl, rfl, rfl, rfl⟩ h2) h1
  · exact sameCore_refl st

theorem sackBranch_nil (st : SendState) (t : ℚ) (tot : Nat) :
    sackBranch st [] t tot = st := by
  unfold sackBranch
  rw [if_neg]
  simp

theorem cumBranch_base_mono (st : SendState) (cum : Nat) (a t : ℚ) :
    st.base_seq ≤ (cumBranch st cum a t).base_seq := by
  unfold cumBranch
  split
  · next hlt => exact Nat.le_of_lt hlt
  · split
    · dsimp only
      split
      · split
        · exact Nat.le_refl _
        · exact Nat.le_refl _
      · exact Nat.le_refl _
    · exact Nat.le_refl _

theorem cumBranch_base_eq_of_le (st : SendState) (cum : Nat) (a t : ℚ)
    (h : cum ≤ st.base_seq) : (cumBranch st cum a t).base_seq = st.base_seq := by
  unfold cumBranch
  rw [if_neg (by omega)]
  split
  · dsimp only
    split
    · split
      · rfl
      · rfl
    · rfl
  · rfl

theorem cumBranch_next (st : SendState) (cum : Nat) (a t : ℚ) :
    (cumBranch st cum a t).next_seq = st.next_seq := by
  unfold cumBranch
  split
  · dsimp only
    split
    · rfl
    · rfl
  · split
    · dsimp only
      split
      · split
        · rfl
        · rfl
      · rfl
    · rfl

theorem processAck_base_mono (st : SendState) (pkt : Bytes) (a t : ℚ) (tot : Nat) :
    st.base_seq ≤ (processAck st pkt a t tot).base_seq := by
  unfold processAck
  split
  · exact Nat.le_refl _
  · next cum sacks _ =>
    rw [(sackBranch_core (cumBranch st cum a t) sacks t tot).1]
    exact cumBranch_base_mono st cum a t

theorem processAck_base_eq (st : SendState) (pkt : Bytes) (a t : ℚ) (tot cum : Nat)
    (sacks : List (Nat × Nat)) (h : parse_ack pkt = some (cum, sacks))
    (hle : cum ≤ st.base_seq) : (processAck st pkt a t tot).base_seq = st.base_seq := by
  unfold processAck
  rw [h]
  rw [(sackBranch_core (cumBranch st cum a t) sacks t tot).1]
  exact cumBranch_base_eq_of_le st cum a t hle

theorem processAck_next (st : SendState) (pkt : Bytes) (a t : ℚ) (tot : Nat) :
    (processAck st pkt a t tot).next_seq = st.next_seq := by
  unfold processAck
  split
  · rfl
  · next cum sacks _ =>
    rw [(sackBranch_core (cumBranch st cum a t) sacks t tot).2.1]
    exact cumBranch_next st cum a t

theorem admitAux_base (cl : List Bytes) (sws : Nat) (now : ℚ) :
    ∀ (fuel : Nat) (st : SendState), (admitAux cl sws now st fuel).base_seq = st.base_seq := by
  intro fuel
  induction fuel with
  | zero => intro st; rfl
  | succ n ih =>
    intro st
    unfold admitAux
    split
    · split
      · rfl
      · exact (ih _).trans rfl
    · rfl

theorem admitAux_next_mono (cl : List Bytes) (sws : Nat) (now : ℚ) :
    ∀ (fuel : Nat) (st : SendState), st.next_seq ≤ (admitAux cl sws now st fuel).next_seq := by
  intro fuel
  induction fuel with
  | zero => intro st; exact Nat.le_refl _
  | succ n ih =>
    intro st
    unfold admitAux
    split
    · split
      · exact Nat.le_refl _
      · refine Nat.le_trans ?_ (ih _)
        exact Nat.le_succ _
    · exact Nat.le_refl _

theorem timeoutStep_base (tot : Nat) (t : ℚ) (st : SendState) :
    (timeoutStep tot t st).base_seq = st.base_seq := by
  unfold timeoutStep
  split
  · rfl
  · split
    · exact (foldl_sameCore (timeoutRetx t) (timeoutRetx_core t) _ _).1.trans rfl
    · rfl

theorem timeoutStep_next (tot : Nat) (t : ℚ) (st : SendState) :
    (timeoutStep tot t st).next_seq = st.next_seq := by
  unfold timeoutStep
  split
  · rfl
  · split
    · exact (foldl_sameCore (timeoutRetx t) (timeoutRetx_core t) _ _).2.1.trans rfl
    · rfl

theorem recvStep_expected_mono (st : RecvState) (pkt : Bytes) :
    st.next_expected ≤ (recvStep st pkt).next_expected := by
  unfold recvStep
  split
  · exact Nat.le_refl _
  · dsimp only
    refine Nat.le_trans (Nat.le_of_eq ?_) (drainFrom_ge _ _ _)
    split
    · rfl
    · split
      · rfl
      · rfl

/-- C9: the sender's `base_seq` never decreases under ACK processing — and is
left unchanged by an ACK whose cumulative value is at most the current base —
nor under admission or timeout retransmission; the receiver's `next_expected`
never decreases under its per-datagram handler. -/
theorem C9_monotonicity :
    (∀ (st : SendState) (pkt : Bytes) (a t : ℚ) (tot : Nat),
      st.base_seq ≤ (processAck st pkt a t tot).base_seq) ∧
    (∀ (st : SendState) (pkt : Bytes) (a t : ℚ) (tot cum : Nat) (sacks : List (Nat × Nat)),
      parse_ack pkt = some (cum, sacks) → cum ≤ st.base_seq →
      (processAck st pkt a t tot).base_seq = st.base_seq) ∧
    (∀ (cl : List Bytes) (sws : Nat) (now : ℚ) (st : SendState),
      (admitAll cl sws now st).base_seq = st.base_seq) ∧
    (∀ (tot : Nat) (t : ℚ) (st : SendState), (timeoutStep tot t st).base_seq = st.base_seq) ∧
    (∀ (st : RecvState) (pkt : Bytes), st.next_expected ≤ (recvStep st pkt).next_expected) := by
  refine ⟨processAck_base_mono, ?_, ?_, timeoutStep_base, recvStep_expected_mono⟩
  · intro st pkt a t tot cum sacks h hle
    exact processAck_base_eq st pkt a t tot cum sacks h hle
  · intro cl sws now st
    exact admitAux_base cl sws now _ st

/-- Witness for C9 at concrete inputs: an advancing ACK, a duplicate ACK that
must leave the base unchanged, and one receiver datagram. -/
theorem C9_monotonicity_witness :
    initSend.base_seq ≤ (processAck initSend [0, 0, 0, 5] 0 0 9).base_seq ∧
    (processAck initSend [0, 0, 0, 0] 0 0 9).base_seq = initSend.base_seq ∧
    (admitAll [[1]] 5000 0 initSend).base_seq = initSend.base_seq ∧
    (timeoutStep 3 7 initSend).base_seq = initSend.base_seq ∧
    initRecv.next_expected ≤ (recvStep initRecv []).next_expected :=
  ⟨C9_monotonicity.1 initSend [0, 0, 0, 5] 0 0 9,
   C9_monotonicity.2.1 initSend [0, 0, 0, 0] 0 0 9 0 [] (by decide) (by decide),
   C9_monotonicity.2.2.1 [[1]] 5000 0 initSend,
   C9_monotonicity.2.2.2.1 3 7 initSend,
   C9_monotonicity.2.2.2.2 initRecv []⟩

/-- C3 counterexample: with `sws_bytes = 1181` (not a multiple of MSS) the
admission loop admits two segments, after which
`(next_seq - base_seq) * MSS = 2360 > 1181`, violating the claimed bound. -/
theorem C3_window_bound_cex :
    ((admitAll [[1], [2], [3]] 1181 0 initSend).next_seq
      - (admitAll [[1], [2], [3]] 1181 0 initSend).base_seq) * MSS = 2360 ∧
    ¬ ((admitAll [[1], [2], [3]] 1181 0 initSend).next_seq
      - (admitAll [[1], [2], [3]] 1181 0 initSend).base_seq) * MSS ≤ 1181 := by
  decide

theorem admitAux_window_lt (cl : List Bytes) (sws : Nat) (now : ℚ) :
    ∀ (fuel : Nat) (st : SendState), (st.next_seq - st.base_seq) * MSS < sws + MSS →
      ((admitAux cl sws now st fuel).next_seq - (admitAux cl sws now st fuel).base_seq) * MSS
        < sws + MSS := by
  intro fuel
  induction fuel with
  | zero => intro st h; exact h
  | succ n ih =>
    intro st h
    unfold admitAux
    split
    · next hc =>
      split
      · exact h
      · apply ih
        simp only [MSS] at hc ⊢
        omega
    · exact h

theorem admitAux_window_dvd (cl : List Bytes) (sws : Nat) (now : ℚ) (hd : MSS ∣ sws) :
    ∀ (fuel : Nat) (st : SendState), (st.next_seq - st.base_seq) * MSS ≤ sws →
      ((admitAux cl sws now st fuel).next_seq - (admitAux cl sws now st fuel).base_seq) * MSS
        ≤ sws := by
  obtain ⟨q, hq⟩ := hd
  intro fuel
  induction fuel with
  | zero => intro st h; exact h
  | succ n ih =>
    intro st h
    unfold admitAux
    split
    · next hc =>
      split
      · exact h
      · apply ih
        simp only [MSS] at hc ⊢
        subst hq
        simp only [MSS] at *
        omega
    · exact h

/-- C3 amended: after each admission the code guarantees only the weaker bound
`(next_seq - base_seq) * MSS < sws_bytes + MSS` (the guard admits a segment
whenever any byte budget remains, overshooting by up to `MSS - 1` bytes); the
claimed bound `(next_seq - base_seq) * MSS ≤ sws_bytes` does hold whenever
`sws_bytes` is a multiple of `MSS`; ACK processing and timeout retransmission
never grow the outstanding window. -/
theorem C3_window_bound_amended :
    (∀ (cl : List Bytes) (sws : Nat) (now : ℚ) (st : SendState),
      (st.next_seq - st.base_seq) * MSS < sws + MSS →
      ((admitAll cl sws now st).next_seq - (admitAll cl sws now st).base_seq) * MSS
        < sws + MSS) ∧
    (∀ (cl : List Bytes) (sws : Nat) (now : ℚ) (st : SendState), MSS ∣ sws →
      (st.next_seq - st.base_seq) * MSS ≤ sws →
      ((admitAll cl sws now st).next_seq - (admitAll cl sws now st).base_seq) * MSS ≤ sws) ∧
    (∀ (st : SendState) (pkt : Bytes) (a t : ℚ) (tot : Nat),
      (processAck st pkt a t tot).next_seq - (processAck st pkt a t tot).base_seq
        ≤ st.next_seq - st.base_seq) ∧
    (∀ (tot : Nat) (t : ℚ) (st : SendState),
      (timeoutStep tot t st).next_seq - (timeoutStep tot t st).base_seq
        = st.next_seq - st.base_seq) := by
  refine ⟨?_, ?_, ?_, ?_⟩
  · intro cl sws now st h
    exact admitAux_window_lt cl sws now _ st h
  · intro cl sws now st hd h
    exact admitAux_window_dvd cl sws now hd _ st h
  · intro st pkt a t tot
    rw [processAck_next]
    exact Nat.sub_le_sub_left (processAck_base_mono st pkt a t tot) _
  · intro tot t st
    rw [timeoutStep_next, timeoutStep_base]

/-- Witness for C3 amended at concrete inputs, including the exact-multiple
window `sws_bytes = 2360 = 2 * MSS`. -/
theorem C3_window_bound_amended_witness :
    ((admitAll [[1]] 1181 0 initSend).next_seq
      - (admitAll [[1]] 1181 0 initSend).base_seq) * MSS < 1181 + MSS ∧
    ((admitAll [[1], [2], [3]] 2360 0 initSend).next_seq
      - (admitAll [[1], [2], [3]] 2360 0 initSend).base_seq) * MSS ≤ 2360 ∧
    (processAck initSend [0, 0, 0, 2] 0 0 3).next_seq
      - (processAck initSend [0, 0, 0, 2] 0 0 3).base_seq
      ≤ initSend.next_seq - initSend.base_seq :=
  ⟨C3_window_bound_amended.1 [[1]] 1181 0 initSend (by decide),
   C3_window_bound_amended.2.1 [[1], [2], [3]] 2360 0 initSend (by decide) (by decide),
   C3_window_bound_amended.2.2.1 initSend [0, 0, 0, 2] 0 0 3⟩

theorem cumBranch_samples_advance (st : SendState) (cum : Nat) (a t : ℚ)
    (h : st.base_seq < cum) :
    (∀ e, lookupKey st.window st.base_seq = some e →
      (cumBranch st cum a t).samples_fed = st.samples_fed ++ [a - e.send_time]) ∧
    (lookupKey st.window st.base_seq = none →
      (cumBranch st cum a t).samples_fed = st.samples_fed) := by
  unfold cumBranch
  rw [if_pos h]
  constructor
  · intro e he
    dsimp only
    rw [he]
    rfl
  · intro he
    dsimp only
    rw [he]

/-- C6 counterexample: after three duplicate ACKs the base segment 0 has been
fast-retransmitted (`retx = true`, no RTT sample fed so far), yet a subsequent
ACK advancing the base still feeds an RTT sample to the estimator — against
Karn's rule as claimed. -/
theorem C6_karn_cex :
    (lookupKey (processAck (processAck (processAck (admitAll [[1], [2]] 10000 0 initSend)
      [0, 0, 0, 0] 1 1 2) [0, 0, 0, 0] 2 2 2) [0, 0, 0, 0] 3 5 2).window 0).map
      WEntry.retx = some true ∧
    (processAck (processAck (processAck (admitAll [[1], [2]] 10000 0 initSend)
      [0, 0, 0, 0] 1 1 2) [0, 0, 0, 0] 2 2 2) [0, 0, 0, 0] 3 5 2).samples_fed = [] ∧
    (processAck (processAck (processAck (processAck (admitAll [[1], [2]] 10000 0 initSend)
      [0, 0, 0, 0] 1 1 2) [0, 0, 0, 0] 2 2 2) [0, 0, 0, 0] 3 5 2)
      [0, 0, 0, 1] 8 8 2).samples_fed.length = 1 ∧
    (processAck (processAck (processAck (processAck (admitAll [[1], [2]] 10000 0 initSend)
      [0, 0, 0, 0] 1 1 2) [0, 0, 0, 0] 2 2 2) [0, 0, 0, 0] 3 5 2)
      [0, 0, 0, 1] 8 8 2).base_seq = 1 := by
  refine ⟨by decide, by decide, by decide, by decide⟩

/-- C6 amended: whenever an ACK advances the base, an RTT sample
`ack_time - last_send_time` is fed to the estimator exactly when the base
entry is still in the window — irrespective of whether that segment was ever
retransmitted (the code has no Karn check; after a retransmission the sample
measures time since the last retransmission). -/
theorem C6_rtt_sample_amended (st : SendState) (pkt : Bytes) (a t : ℚ) (tot cum : Nat)
    (sacks : List (Nat × Nat)) (h : parse_ack pkt = some (cum, sacks))
    (hlt : st.base_seq < cum) :
    (∀ e, lookupKey st.window st.base_seq = some e →
      (processAck st pkt a t tot).samples_fed = st.samples_fed ++ [a - e.send_time]) ∧
    (lookupKey st.window st.base_seq = none →
      (processAck st pkt a t tot).samples_fed = st.samples_fed) := by
  unfold processAck
  rw [h]
  dsimp only
  rw [(sackBranch_core (cumBranch st cum a t) sacks t tot).2.2.2]
  exact cumBranch_samples_advance st cum a t hlt

/-- Witness for C6 amended: a freshly admitted (never retransmitted) base
segment acknowledged at time 3 feeds the sample `3 - 0`. -/
theorem C6_rtt_sample_amended_witness :
    (processAck (admitAll [[1], [2]] 10000 0 initSend) [0, 0, 0, 1] 3 3 2).samples_fed =
      (admitAll [[1], [2]] 10000 0 initSend).samples_fed ++ [3 - WEntry.send_time
        { packet := create_packet 0 [1], send_time := 0, retx := false }] :=
  (C6_rtt_sample_amended (admitAll [[1], [2]] 10000 0 initSend) [0, 0, 0, 1] 3 3 2 1 []
    (by decide) (by decide)).1
    { packet := create_packet 0 [1], send_time := 0, retx := false } (by decide)

theorem cumBranch_dup (st : SendState) (cum : Nat) (a t : ℚ) (h : cum = st.base_seq) :
    (cumBranch st cum a t).duplicate_ack_count
      = setKey st.duplicate_ack_count cum ((lookupKey st.duplicate_ack_count cum).getD 0 + 1) ∧
    (∀ e, (lookupKey st.duplicate_ack_count cum).getD 0 + 1 = 3 →
      lookupKey st.window st.base_seq = some e →
      (cumBranch st cum a t).window
        = setKey st.window st.base_seq { e with send_time := t, retx := true }) ∧
    ((lookupKey st.duplicate_ack_count cum).getD 0 + 1 ≠ 3 →
      (cumBranch st cum a t).window = st.window) := by
  unfold cumBranch
  rw [if_neg (by omega), if_pos h]
  refine ⟨?_, ?_, ?_⟩
  · dsimp only
    split
    · split
      · rfl
      · rfl
    · rfl
  · intro e h3 he
    dsimp only
    rw [if_pos h3, he]
  · intro h3
    dsimp only
    rw [if_neg h3]

/-- C7 counterexample: three duplicate ACKs for base 0 leave the counter at 3
(not zeroed as claimed) after triggering the fast retransmit at time 5; the
fourth duplicate only raises the counter to 4 and triggers no retransmission
(the base entry's send time stays 5), so the count does not restart. -/
theorem C7_dup_counter_cex :
    (processAck (processAck (processAck (admitAll [[1], [2]] 10000 0 initSend)
      [0, 0, 0, 0] 1 1 2) [0, 0, 0, 0] 2 2 2) [0, 0, 0, 0] 3 5 2).duplicate_ack_count
      = [(0, 3)] ∧
    (lookupKey (processAck (processAck (processAck (admitAll [[1], [2]] 10000 0 initSend)
      [0, 0, 0, 0] 1 1 2) [0, 0, 0, 0] 2 2 2) [0, 0, 0, 0] 3 5 2).window 0).map
      WEntry.send_time = some 5 ∧
    (processAck (processAck (processAck (processAck (admitAll [[1], [2]] 10000 0 initSend)
      [0, 0, 0, 0] 1 1 2) [0, 0, 0, 0] 2 2 2) [0, 0, 0, 0] 3 5 2)
      [0, 0, 0, 0] 7 9 2).duplicate_ack_count = [(0, 4)] ∧
    (lookupKey (processAck (processAck (processAck (processAck
      (admitAll [[1], [2]] 10000 0 initSend) [0, 0, 0, 0] 1 1 2) [0, 0, 0, 0] 2 2 2)
      [0, 0, 0, 0] 3 5 2) [0, 0, 0, 0] 7 9 2).window 0).map WEntry.send_time = some 5 := by
  refine ⟨by decide, by decide, by decide, by decide⟩

/-- C7 amended: an ACK equal to the current base increments the duplicate-ACK
counter; exactly when the counter reaches 3 the segment at the base is
retransmitted (when still in the window), but the counter is not zeroed — any
later duplicate only increments it past 3 and triggers no retransmission. -/
theorem C7_fast_retransmit_amended (st : SendState) (pkt : Bytes) (a t : ℚ) (tot cum : Nat)
    (h : parse_ack pkt = some (cum, [])) (heq : cum = st.base_seq) :
    (processAck st pkt a t tot).duplicate_ack_count
      = setKey st.duplicate_ack_count cum ((lookupKey st.duplicate_ack_count cum).getD 0 + 1) ∧
    (∀ e, (lookupKey st.duplicate_ack_count cum).getD 0 + 1 = 3 →
      lookupKey st.window st.base_seq = some e →
      (processAck st pkt a t tot).window
        = setKey st.window st.base_seq { e with send_time := t, retx := true }) ∧
    ((lookupKey st.duplicate_ack_count cum).getD 0 + 1 ≠ 3 →
      (processAck st pkt a t tot).window = st.window) := by
  unfold processAck
  rw [h]
  dsimp only
  rw [sackBranch_nil]
  exact cumBranch_dup st cum a t heq

/-- Witness for C7 amended: a first duplicate ACK at a fresh sender with one
admitted segment — the counter becomes 1 and the window is untouched. -/
theorem C7_fast_retransmit_amended_witness :
    (processAck (admitAll [[1], [2]] 10000 0 initSend) [0, 0, 0, 0] 1 1 2).duplicate_ack_count
      = setKey (admitAll [[1], [2]] 10000 0 initSend).duplicate_ack_count 0
        ((lookupKey (admitAll [[1], [2]] 10000 0 initSend).duplicate_ack_count 0).getD 0 + 1) ∧
    (processAck (admitAll [[1], [2]] 10000 0 initSend) [0, 0, 0, 0] 1 1 2).window
      = (admitAll [[1], [2]] 10000 0 initSend).window :=
  ⟨(C7_fast_retransmit_amended (admitAll [[1], [2]] 10000 0 initSend) [0, 0, 0, 0] 1 1 2 0
      (by decide) (by decide)).1,
   (C7_fast_retransmit_amended (admitAll [[1], [2]] 10000 0 initSend) [0, 0, 0, 0] 1 1 2 0
      (by decide) (by decide)).2.2 (by decide)⟩

end RUDP
